import Mathlib

/-!
Verification of the dexterity inverse-kinematics solver
(`shadow_hand/ik/ik_solver.py`).

The solver's numeric state is modelled exactly over `ℚ`; Euclidean norms
(`np.linalg.norm`) become real square roots of rational sums of squares.
The external collaborators designated by the spec — the damped-least-squares
velocity mapper, the MuJoCo integration primitive `mj_integratePos` and the
forward-kinematics pass that refreshes site poses — are oracle functions
carried in an `Env` record.  Python float literals are idealised as the
exact rationals they denote in the source text.
-/

namespace Dexterity

/-- Module constant `_LINEAR_VELOCITY_GAIN = 0.95`. -/
def LINEAR_VELOCITY_GAIN : ℚ := 19/20

/-- Module constant `_NULLSPACE_GAIN = 0.4`. -/
def NULLSPACE_GAIN_CONST : ℚ := 2/5

/-- Module constant `_INTEGRATION_TIMESTEP_SEC = 1.0`. -/
def INTEGRATION_TIMESTEP : ℚ := 1

/-- Module constant `_PROGRESS_THRESHOLD = 20.0`. -/
def PROGRESS_THRESHOLD : ℚ := 20

/-- The `1e-10` guard added to the per-step displacement in the stall test. -/
def PROGRESS_EPS : ℚ := 1/10000000000

/-- A 3-D vector of exact rationals (site positions, linear twists). -/
structure V3 where
  x : ℚ
  y : ℚ
  z : ℚ
deriving DecidableEq

/-- Squared Euclidean distance between two 3-D points. -/
def sqDist (a b : V3) : ℚ :=
  (a.x - b.x)^2 + (a.y - b.y)^2 + (a.z - b.z)^2

/-- Euclidean distance between 3-D points: `np.linalg.norm(a - b)`. -/
noncomputable def dist3 (a b : V3) : ℝ :=
  Real.sqrt ((sqDist a b : ℚ) : ℝ)

/-- Euclidean distance between joint-space vectors:
`np.linalg.norm(a - b)` for length-`n` joint configurations. -/
noncomputable def qdist {n : ℕ} (a b : Fin n → ℚ) : ℝ :=
  Real.sqrt (((∑ i, (a i - b i)^2 : ℚ) : ℚ) : ℝ)

/-- Return value of one IK solve attempt (`_Solution` in the source):
the final full joint configuration together with its mean linear error. -/
structure Solution (n : ℕ) where
  qpos : Fin n → ℚ
  linear_err : ℝ

/-- The solver's environment: static chain data plus the external oracles.
`n` is the number of hand joints (the full physics `qpos` vector), `m` the
number of tracked fingertip targets.

* `ranges i` — the static joint limit pair `(min_i, max_i)`;
* `ctrl` — the set of controllable joints seeded by `solve` (the union of
  the per-finger joint bindings);
* `gain` — the `nullspace_gain` value given to the constructor;
* `mapper` — the damped-least-squares mapper
  (`compute_joint_velocities(data, target_velocities, nullspace_bias)`),
  reading the current configuration, the per-target linear twists and an
  optional nullspace bias;
* `integrate` — `mj_integratePos` over one timestep;
* `fk` — forward kinematics: world position of each tracked fingertip site
  for a given configuration;
* `targets` — the Cartesian target positions of the call;
* `rand k i` — the value drawn by `np.random.uniform` for joint `i` when
  seeding attempt `k`. -/
structure Env (n m : ℕ) where
  ranges : Fin n → ℚ × ℚ
  ctrl : Finset (Fin n)
  gain : ℚ
  mapper : (Fin n → ℚ) → (Fin m → V3) → Option (Fin n → ℚ) → Fin n → ℚ
  integrate : (Fin n → ℚ) → (Fin n → ℚ) → Fin n → ℚ
  fk : (Fin n → ℚ) → Fin m → V3
  targets : Fin m → V3
  rand : ℕ → Fin n → ℚ

/-- The nullspace reference configuration
`0.5 * np.sum(self._all_joints_binding.range, axis=1)`: the midpoint of
each joint's limit range. -/
def nullspaceRef {n m : ℕ} (env : Env n m) : Fin n → ℚ :=
  fun i => ((env.ranges i).1 + (env.ranges i).2) / 2

/-- Linear part of `_compute_twist`:
`linear = linear_velocity_gain * (final - init) / control_timestep`.
Only the linear part of the twist is consumed by the mapper
(`twists.append(twist.linear)`). -/
def twistLinear (cur target : V3) : V3 :=
  ⟨LINEAR_VELOCITY_GAIN * (target.x - cur.x) / INTEGRATION_TIMESTEP,
   LINEAR_VELOCITY_GAIN * (target.y - cur.y) / INTEGRATION_TIMESTEP,
   LINEAR_VELOCITY_GAIN * (target.z - cur.z) / INTEGRATION_TIMESTEP⟩

/-- `np.clip(x, lo, hi)` for one joint. -/
def clampJoint (r : ℚ × ℚ) (x : ℚ) : ℚ :=
  min (max x r.1) r.2

/-- The nullspace bias of `_compute_joint_velocities`: `None` unless the
configured gain is positive, otherwise
`_NULLSPACE_GAIN * (reference - qpos) / _INTEGRATION_TIMESTEP_SEC`.
Note the source multiplies by the module constant `_NULLSPACE_GAIN`,
not by the configured `self._nullspace_gain`. -/
def nullspaceBias {n m : ℕ} (env : Env n m) (q : Fin n → ℚ) :
    Option (Fin n → ℚ) :=
  if 0 < env.gain then
    some (fun i =>
      NULLSPACE_GAIN_CONST * (nullspaceRef env i - q i) / INTEGRATION_TIMESTEP)
  else none

/-- One iteration of the `_solve_ik` step loop acting on the configuration:
compute the per-target linear twists from the current poses, map them (with
the nullspace bias) to joint velocities, integrate one timestep, and clamp
the result to the joint limits (`_update_physics_data`).  Poses are always
the forward kinematics of the current configuration, so the configuration
is the whole loop state. -/
def ikStep {n m : ℕ} (env : Env n m) (q : Fin n → ℚ) : Fin n → ℚ :=
  let twists := fun i => twistLinear (env.fk q i) (env.targets i)
  let qdot := env.mapper q twists (nullspaceBias env q)
  fun i => clampJoint (env.ranges i) (env.integrate q qdot i)

/-- Per-target linear error after the step: distance between the target
position and the tracked site's position at configuration `q`. -/
noncomputable def linErr {n m : ℕ} (env : Env n m) (q : Fin n → ℚ)
    (i : Fin m) : ℝ :=
  dist3 (env.targets i) (env.fk q i)

/-- Mean linear error across targets (`avg_linear_err`). -/
noncomputable def avgLinErr {n m : ℕ} (env : Env n m) (q : Fin n → ℚ) : ℝ :=
  (∑ i, linErr env q i) / m

/-- `close_enough`: no target's error exceeds the tolerance. -/
def closeEnough {n m : ℕ} (env : Env n m) (tol : ℚ) (q : Fin n → ℚ) : Prop :=
  ∀ i, linErr env q i ≤ (tol : ℝ)

/-- `not_enough_progress`: some target's error, divided by that target's
displacement over the step plus `1e-10`, exceeds `_PROGRESS_THRESHOLD`. -/
def stalled {n m : ℕ} (env : Env n m) (qold qnew : Fin n → ℚ) : Prop :=
  ∃ i, linErr env qnew i /
      (dist3 (env.fk qnew i) (env.fk qold i) + (PROGRESS_EPS : ℝ)) >
    (PROGRESS_THRESHOLD : ℝ)

open Classical in
/-- The step loop of `_solve_ik`.  The third argument carries the value of
the Python local `avg_linear_err` from the previous iteration (`none` when
no iteration has run yet).  Returning `none` models the exceptions the
source can raise: `UnboundLocalError` when the loop never ran
(`max_steps = 0`), and `ZeroDivisionError` at `avg_linear_err /= len(...)`
when the target set is empty. -/
noncomputable def ikLoop {n m : ℕ} (env : Env n m) (tol : ℚ) (early : Bool) :
    ℕ → (Fin n → ℚ) → Option ℝ → Option (Solution n)
  | 0, q, avg => avg.map (fun e => ⟨q, e⟩)
  | s + 1, q, _ =>
      if m = 0 then none
      else
        let q1 := ikStep env q
        if (early = true ∧ closeEnough env tol q1) ∨ stalled env q q1 then
          some ⟨q1, avgLinErr env q1⟩
        else
          ikLoop env tol early s q1 (some (avgLinErr env q1))

/-- `_solve_ik`: run the step loop from configuration `q` with a fresh
(unset) `avg_linear_err`. -/
noncomputable def solveIK {n m : ℕ} (env : Env n m) (tol : ℚ) (steps : ℕ)
    (early : Bool) (q : Fin n → ℚ) : Option (Solution n) :=
  ikLoop env tol early steps q none

/-- The per-attempt seeding of `solve`: attempt `0` writes zero into every
controllable joint, attempt `k ≥ 1` writes the `np.random.uniform` draw
`env.rand k i`; joints outside the controllable set keep their value. -/
def seedQ {n m : ℕ} (env : Env n m) (k : ℕ) (q : Fin n → ℚ) : Fin n → ℚ :=
  fun i => if i ∈ env.ctrl then (if k = 0 then 0 else env.rand k i) else q i

open Classical in
/-- The best-candidate update of `solve`: starting from
`nullspace_jnt_qpos_min_err = np.inf`, a success replaces the stored
solution exactly when its nullspace distance is strictly smaller; an empty
accumulator is always replaced (every real is below `np.inf`). -/
noncomputable def updateBest {n : ℕ} (best : Option (ℝ × (Fin n → ℚ)))
    (d : ℝ) (v : Fin n → ℚ) : Option (ℝ × (Fin n → ℚ)) :=
  match best with
  | none => some (d, v)
  | some p => if d < p.1 then some (d, v) else some p

open Classical in
/-- The effect of lines 189–199 of `solve` on the accumulator: if the
attempt's solution is within tolerance, update the best candidate with its
nullspace distance, otherwise keep the accumulator unchanged. -/
noncomputable def bestNext {n m : ℕ} (env : Env n m) (tol : ℚ)
    (best : Option (ℝ × (Fin n → ℚ))) (sol : Solution n) :
    Option (ℝ × (Fin n → ℚ)) :=
  if sol.linear_err ≤ (tol : ℝ) then
    updateBest best (qdist sol.qpos (nullspaceRef env)) sol.qpos
  else best

open Classical in
/-- The attempt loop of `solve`.  `r` counts the remaining attempts, `k` is
the current attempt index, `q` the physics configuration carried over from
the previous attempt, and `best` the `(nullspace_jnt_qpos_min_err,
sol_qpos)` accumulator (`none` while no attempt has succeeded, so
`best.isSome` is the `success` flag).  `Except.error` models an exception
propagating out of `solve`; the normal return value is `sol_qpos`. -/
noncomputable def solveAux {n m : ℕ} (env : Env n m) (tol : ℚ) (steps : ℕ)
    (early stopFirst : Bool) :
    ℕ → ℕ → (Fin n → ℚ) → Option (ℝ × (Fin n → ℚ)) →
      Except Unit (Option (Fin n → ℚ))
  | 0, _, _, best => .ok (best.map Prod.snd)
  | r + 1, k, q, best =>
      match solveIK env tol steps early (seedQ env k q) with
      | none => .error ()
      | some sol =>
          if stopFirst = true ∧ (bestNext env tol best sol).isSome = true then
            .ok ((bestNext env tol best sol).map Prod.snd)
          else
            solveAux env tol steps early stopFirst r (k + 1) sol.qpos
              (bestNext env tol best sol)

/-- `IKSolver.solve`: run `num_attempts` seeded attempts from the initial
physics configuration `q0` and return the retained configuration (`none`
when no attempt succeeded), or an error when an attempt raised. -/
noncomputable def solve {n m : ℕ} (env : Env n m) (tol : ℚ) (steps : ℕ)
    (early stopFirst : Bool) (attempts : ℕ) (q0 : Fin n → ℚ) :
    Except Unit (Option (Fin n → ℚ)) :=
  solveAux env tol steps early stopFirst attempts 0 q0 none

open Classical in
/-- The effect of one attempt on the `success` flag. -/
noncomputable def succNext (tol : ℚ) (b : Bool) {n : ℕ} (sol : Solution n) :
    Bool :=
  if sol.linear_err ≤ (tol : ℝ) then true else b

open Classical in
/-- Ghost observer: the list of `_Solution` values produced by the attempts
that actually execute, mirroring the control flow of `solveAux` (the same
seeding, the same early break on `stop_on_first_successful_attempt`, and an
attempt that raises contributes nothing and stops the trace).  `b` is the
`success` flag carried into the remaining attempts. -/
noncomputable def attemptTrace {n m : ℕ} (env : Env n m) (tol : ℚ)
    (steps : ℕ) (early stopFirst : Bool) :
    ℕ → ℕ → (Fin n → ℚ) → Bool → List (Solution n)
  | 0, _, _, _ => []
  | r + 1, k, q, b =>
      match solveIK env tol steps early (seedQ env k q) with
      | none => []
      | some sol =>
          sol ::
            (if stopFirst = true ∧ succNext tol b sol = true then []
             else attemptTrace env tol steps early stopFirst r (k + 1) sol.qpos
               (succNext tol b sol))

/-! ## Unfolding equations and basic facts -/

lemma ikLoop_zero {n m : ℕ} (env : Env n m) (tol : ℚ) (early : Bool)
    (q : Fin n → ℚ) (avg : Option ℝ) :
    ikLoop env tol early 0 q avg = avg.map (fun e => ⟨q, e⟩) := rfl

open Classical in
lemma ikLoop_succ {n m : ℕ} (env : Env n m) (tol : ℚ) (early : Bool)
    (s : ℕ) (q : Fin n → ℚ) (avg : Option ℝ) :
    ikLoop env tol early (s + 1) q avg =
      if m = 0 then none
      else
        if (early = true ∧ closeEnough env tol (ikStep env q)) ∨
            stalled env q (ikStep env q) then
          some ⟨ikStep env q, avgLinErr env (ikStep env q)⟩
        else
          ikLoop env tol early s (ikStep env q)
            (some (avgLinErr env (ikStep env q))) := rfl

lemma solveAux_zero {n m : ℕ} (env : Env n m) (tol : ℚ) (steps : ℕ)
    (early stopFirst : Bool) (k : ℕ) (q : Fin n → ℚ)
    (best : Option (ℝ × (Fin n → ℚ))) :
    solveAux env tol steps early stopFirst 0 k q best =
      .ok (best.map Prod.snd) := rfl

lemma solveAux_succ_none {n m : ℕ} (env : Env n m) (tol : ℚ) (steps : ℕ)
    (early stopFirst : Bool) (r k : ℕ) (q : Fin n → ℚ)
    (best : Option (ℝ × (Fin n → ℚ)))
    (h : solveIK env tol steps early (seedQ env k q) = none) :
    solveAux env tol steps early stopFirst (r + 1) k q best = .error () := by
  show (match solveIK env tol steps early (seedQ env k q) with
    | none => Except.error ()
    | some sol =>
        if stopFirst = true ∧ (bestNext env tol best sol).isSome = true then
          .ok ((bestNext env tol best sol).map Prod.snd)
        else
          solveAux env tol steps early stopFirst r (k + 1) sol.qpos
            (bestNext env tol best sol)) =
    Except.error ()
  rw [h]

open Classical in
lemma solveAux_succ_some {n m : ℕ} (env : Env n m) (tol : ℚ) (steps : ℕ)
    (early stopFirst : Bool) (r k : ℕ) (q : Fin n → ℚ)
    (best : Option (ℝ × (Fin n → ℚ))) (sol : Solution n)
    (h : solveIK env tol steps early (seedQ env k q) = some sol) :
    solveAux env tol steps early stopFirst (r + 1) k q best =
      (if stopFirst = true ∧ (bestNext env tol best sol).isSome = true then
        .ok ((bestNext env tol best sol).map Prod.snd)
      else
        solveAux env tol steps early stopFirst r (k + 1) sol.qpos
          (bestNext env tol best sol)) := by
  show (match solveIK env tol steps early (seedQ env k q) with
    | none => Except.error ()
    | some sol =>
        if stopFirst = true ∧ (bestNext env tol best sol).isSome = true then
          .ok ((bestNext env tol best sol).map Prod.snd)
        else
          solveAux env tol steps early stopFirst r (k + 1) sol.qpos
            (bestNext env tol best sol)) = _
  rw [h]

lemma attemptTrace_zero {n m : ℕ} (env : Env n m) (tol : ℚ) (steps : ℕ)
    (early stopFirst : Bool) (k : ℕ) (q : Fin n → ℚ) (b : Bool) :
    attemptTrace env tol steps early stopFirst 0 k q b = [] := rfl

lemma attemptTrace_succ_none {n m : ℕ} (env : Env n m) (tol : ℚ) (steps : ℕ)
    (early stopFirst : Bool) (r k : ℕ) (q : Fin n → ℚ) (b : Bool)
    (h : solveIK env tol steps early (seedQ env k q) = none) :
    attemptTrace env tol steps early stopFirst (r + 1) k q b = [] := by
  show (match solveIK env tol steps early (seedQ env k q) with
    | none => ([] : List (Solution n))
    | some sol =>
        sol ::
          (if stopFirst = true ∧ succNext tol b sol = true then []
           else attemptTrace env tol steps early stopFirst r (k + 1) sol.qpos
             (succNext tol b sol))) = _
  rw [h]

open Classical in
lemma attemptTrace_succ_some {n m : ℕ} (env : Env n m) (tol : ℚ) (steps : ℕ)
    (early stopFirst : Bool) (r k : ℕ) (q : Fin n → ℚ) (b : Bool)
    (sol : Solution n)
    (h : solveIK env tol steps early (seedQ env k q) = some sol) :
    attemptTrace env tol steps early stopFirst (r + 1) k q b =
      sol ::
        (if stopFirst = true ∧ succNext tol b sol = true then []
         else attemptTrace env tol steps early stopFirst r (k + 1) sol.qpos
           (succNext tol b sol)) := by
  show (match solveIK env tol steps early (seedQ env k q) with
    | none => ([] : List (Solution n))
    | some sol =>
        sol ::
          (if stopFirst = true ∧ succNext tol b sol = true then []
           else attemptTrace env tol steps early stopFirst r (k + 1) sol.qpos
             (succNext tol b sol))) = _
  rw [h]

lemma updateBest_isSome {n : ℕ} (best : Option (ℝ × (Fin n → ℚ))) (d : ℝ)
    (v : Fin n → ℚ) : (updateBest best d v).isSome = true := by
  cases best with
  | none => rfl
  | some p =>
      show (if d < p.1 then some (d, v) else some p).isSome = true
      by_cases h : d < p.1
      · rw [if_pos h]; rfl
      · rw [if_neg h]; rfl

lemma updateBest_cases {n : ℕ} (best : Option (ℝ × (Fin n → ℚ))) (d : ℝ)
    (v : Fin n → ℚ) :
    (best = none ∧ updateBest best d v = some (d, v)) ∨
      (∃ p, best = some p ∧
        ((d < p.1 ∧ updateBest best d v = some (d, v)) ∨
          (¬ d < p.1 ∧ updateBest best d v = some p))) := by
  cases best with
  | none => exact Or.inl ⟨rfl, rfl⟩
  | some p =>
      refine Or.inr ⟨p, rfl, ?_⟩
      by_cases h : d < p.1
      · exact Or.inl ⟨h, by
          show (if d < p.1 then some (d, v) else some p) = some (d, v)
          rw [if_pos h]⟩
      · exact Or.inr ⟨h, by
          show (if d < p.1 then some (d, v) else some p) = some p
          rw [if_neg h]⟩

open Classical in
lemma bestNext_succ {n m : ℕ} (env : Env n m) (tol : ℚ)
    (best : Option (ℝ × (Fin n → ℚ))) (sol : Solution n)
    (h : sol.linear_err ≤ (tol : ℝ)) :
    bestNext env tol best sol =
      updateBest best (qdist sol.qpos (nullspaceRef env)) sol.qpos := by
  unfold bestNext; rw [if_pos h]

open Classical in
lemma bestNext_fail {n m : ℕ} (env : Env n m) (tol : ℚ)
    (best : Option (ℝ × (Fin n → ℚ))) (sol : Solution n)
    (h : ¬ sol.linear_err ≤ (tol : ℝ)) :
    bestNext env tol best sol = best := by
  unfold bestNext; rw [if_neg h]

open Classical in
lemma bestNext_isSome_eq_succNext {n m : ℕ} (env : Env n m) (tol : ℚ)
    (best : Option (ℝ × (Fin n → ℚ))) (sol : Solution n) (b : Bool)
    (hb : b = best.isSome) :
    (bestNext env tol best sol).isSome = succNext tol b sol := by
  by_cases h : sol.linear_err ≤ (tol : ℝ)
  · rw [bestNext_succ env tol best sol h, updateBest_isSome]
    unfold succNext; rw [if_pos h]
  · rw [bestNext_fail env tol best sol h]
    unfold succNext; rw [if_neg h, hb]

lemma bestNext_inv {n m : ℕ} (env : Env n m) (tol : ℚ)
    (best : Option (ℝ × (Fin n → ℚ))) (sol : Solution n)
    (hinv : ∀ d v, best = some (d, v) → d = qdist v (nullspaceRef env)) :
    ∀ d v, bestNext env tol best sol = some (d, v) →
      d = qdist v (nullspaceRef env) := by
  intro d v h
  by_cases hsucc : sol.linear_err ≤ (tol : ℝ)
  · rw [bestNext_succ env tol best sol hsucc] at h
    rcases updateBest_cases best (qdist sol.qpos (nullspaceRef env)) sol.qpos
      with ⟨_, he⟩ | ⟨p, hp, ⟨_, he⟩ | ⟨_, he⟩⟩
    · rw [he] at h
      injection h with h2
      injection h2 with h3 h4
      rw [← h3, ← h4]
    · rw [he] at h
      injection h with h2
      injection h2 with h3 h4
      rw [← h3, ← h4]
    · rw [he] at h
      injection h with h2
      exact hinv d v (by rw [hp, h2])
  · rw [bestNext_fail env tol best sol hsucc] at h
    exact hinv d v h

lemma bestNext_origin {n m : ℕ} (env : Env n m) (tol : ℚ)
    (best : Option (ℝ × (Fin n → ℚ))) (sol : Solution n) :
    ∀ d v, bestNext env tol best sol = some (d, v) →
      best = some (d, v) ∨
        (sol.linear_err ≤ (tol : ℝ) ∧ v = sol.qpos ∧
          d = qdist sol.qpos (nullspaceRef env)) := by
  intro d v h
  by_cases hsucc : sol.linear_err ≤ (tol : ℝ)
  · rw [bestNext_succ env tol best sol hsucc] at h
    rcases updateBest_cases best (qdist sol.qpos (nullspaceRef env)) sol.qpos
      with ⟨_, he⟩ | ⟨p, hp, ⟨_, he⟩ | ⟨_, he⟩⟩
    · rw [he] at h
      injection h with h2
      injection h2 with h3 h4
      exact Or.inr ⟨hsucc, h4.symm, h3.symm⟩
    · rw [he] at h
      injection h with h2
      injection h2 with h3 h4
      exact Or.inr ⟨hsucc, h4.symm, h3.symm⟩
    · rw [he] at h
      injection h with h2
      exact Or.inl (by rw [hp, h2])
  · rw [bestNext_fail env tol best sol hsucc] at h
    exact Or.inl h

lemma bestNext_le_best {n m : ℕ} (env : Env n m) (tol : ℚ)
    (best : Option (ℝ × (Fin n → ℚ))) (sol : Solution n) :
    ∀ d v, bestNext env tol best sol = some (d, v) →
      ∀ d0 w0, best = some (d0, w0) → d ≤ d0 := by
  intro d v h d0 w0 hbest
  by_cases hsucc : sol.linear_err ≤ (tol : ℝ)
  · rw [bestNext_succ env tol best sol hsucc] at h
    rcases updateBest_cases best (qdist sol.qpos (nullspaceRef env)) sol.qpos
      with ⟨hn, _⟩ | ⟨p, hp, ⟨hlt, he⟩ | ⟨hge, he⟩⟩
    · rw [hn] at hbest; exact Option.noConfusion hbest
    · rw [he] at h
      injection h with h2
      injection h2 with h3 _
      rw [hp] at hbest
      injection hbest with h4
      subst h4
      rw [← h3]
      exact le_of_lt hlt
    · rw [he] at h
      injection h with h2
      subst h2
      rw [hp] at hbest
      injection hbest with h4
      injection h4 with h5 _
      exact le_of_eq h5
  · rw [bestNext_fail env tol best sol hsucc] at h
    rw [h] at hbest
    injection hbest with h2
    injection h2 with h3 _
    exact le_of_eq h3

lemma bestNext_le_sol {n m : ℕ} (env : Env n m) (tol : ℚ)
    (best : Option (ℝ × (Fin n → ℚ))) (sol : Solution n)
    (hsucc : sol.linear_err ≤ (tol : ℝ)) :
    ∀ d v, bestNext env tol best sol = some (d, v) →
      d ≤ qdist sol.qpos (nullspaceRef env) := by
  intro d v h
  rw [bestNext_succ env tol best sol hsucc] at h
  rcases updateBest_cases best (qdist sol.qpos (nullspaceRef env)) sol.qpos
    with ⟨_, he⟩ | ⟨p, hp, ⟨hlt, he⟩ | ⟨hge, he⟩⟩
  · rw [he] at h
    injection h with h2
    injection h2 with h3 _
    exact le_of_eq h3.symm
  · rw [he] at h
    injection h with h2
    injection h2 with h3 _
    exact le_of_eq h3.symm
  · rw [he] at h
    injection h with h2
    subst h2
    exact le_of_not_lt hge

lemma bestNext_none {n m : ℕ} (env : Env n m) (tol : ℚ)
    (best : Option (ℝ × (Fin n → ℚ))) (sol : Solution n)
    (h : bestNext env tol best sol = none) :
    best = none ∧ ¬ sol.linear_err ≤ (tol : ℝ) := by
  by_cases hsucc : sol.linear_err ≤ (tol : ℝ)
  · rw [bestNext_succ env tol best sol hsucc] at h
    have := updateBest_isSome best (qdist sol.qpos (nullspaceRef env)) sol.qpos
    rw [h] at this
    exact Bool.noConfusion this
  · rw [bestNext_fail env tol best sol hsucc] at h
    exact ⟨h, hsucc⟩

lemma bestNext_isSome_of_succ {n m : ℕ} (env : Env n m) (tol : ℚ)
    (best : Option (ℝ × (Fin n → ℚ))) (sol : Solution n)
    (hsucc : sol.linear_err ≤ (tol : ℝ)) :
    (bestNext env tol best sol).isSome = true := by
  rw [bestNext_succ env tol best sol hsucc]
  exact updateBest_isSome _ _ _

lemma bestNext_isSome_of_best {n m : ℕ} (env : Env n m) (tol : ℚ)
    (best : Option (ℝ × (Fin n → ℚ))) (sol : Solution n)
    (hb : best.isSome = true) :
    (bestNext env tol best sol).isSome = true := by
  by_cases hsucc : sol.linear_err ≤ (tol : ℝ)
  · exact bestNext_isSome_of_succ env tol best sol hsucc
  · rw [bestNext_fail env tol best sol hsucc]; exact hb

lemma sqDist_nonneg (a b : V3) : 0 ≤ sqDist a b := by
  unfold sqDist; positivity

lemma dist3_nonneg (a b : V3) : 0 ≤ dist3 a b := Real.sqrt_nonneg _

@[simp] lemma sqDist_self (a : V3) : sqDist a a = 0 := by
  simp [sqDist]

@[simp] lemma dist3_self (a : V3) : dist3 a a = 0 := by
  simp [dist3]

lemma linErr_nonneg {n m : ℕ} (env : Env n m) (q : Fin n → ℚ) (i : Fin m) :
    0 ≤ linErr env q i := dist3_nonneg _ _

lemma avgLinErr_nonneg {n m : ℕ} (env : Env n m) (q : Fin n → ℚ) :
    0 ≤ avgLinErr env q := by
  unfold avgLinErr
  apply div_nonneg
  · exact Finset.sum_nonneg fun i _ => linErr_nonneg env q i
  · exact Nat.cast_nonneg m

/-! ## Core lemmas about the step loop -/

lemma ikLoop_isSome_of_avg {n m : ℕ} (env : Env n m) (tol : ℚ) (early : Bool)
    (hm : m ≠ 0) :
    ∀ (s : ℕ) (q : Fin n → ℚ) (e : ℝ),
      (ikLoop env tol early s q (some e)).isSome = true := by
  intro s
  induction s with
  | zero => intro q e; rw [ikLoop_zero]; rfl
  | succ s ih =>
      intro q e
      rw [ikLoop_succ, if_neg hm]
      by_cases hbr : (early = true ∧ closeEnough env tol (ikStep env q)) ∨
          stalled env q (ikStep env q)
      · rw [if_pos hbr]; rfl
      · rw [if_neg hbr]; exact ih _ _

lemma solveIK_isSome {n m : ℕ} (env : Env n m) (tol : ℚ) (early : Bool)
    (steps : ℕ) (q : Fin n → ℚ) (hm : m ≠ 0) (hs : steps ≠ 0) :
    (solveIK env tol steps early q).isSome = true := by
  obtain ⟨s, rfl⟩ := Nat.exists_eq_succ_of_ne_zero hs
  unfold solveIK
  rw [ikLoop_succ, if_neg hm]
  by_cases hbr : (early = true ∧ closeEnough env tol (ikStep env q)) ∨
      stalled env q (ikStep env q)
  · rw [if_pos hbr]; rfl
  · rw [if_neg hbr]; exact ikLoop_isSome_of_avg env tol early hm _ _ _

lemma solveIK_eq_none_of_m_eq_zero {n m : ℕ} (env : Env n m) (tol : ℚ)
    (early : Bool) (steps : ℕ) (q : Fin n → ℚ) (hm : m = 0) :
    solveIK env tol steps early q = none := by
  cases steps with
  | zero => rfl
  | succ s => unfold solveIK; rw [ikLoop_succ, if_pos hm]

lemma solveIK_eq_none_of_steps_eq_zero {n m : ℕ} (env : Env n m) (tol : ℚ)
    (early : Bool) (q : Fin n → ℚ) :
    solveIK env tol 0 early q = none := rfl

lemma ikLoop_linear_err {n m : ℕ} (env : Env n m) (tol : ℚ) (early : Bool) :
    ∀ (s : ℕ) (q : Fin n → ℚ) (avg : Option ℝ),
      (∀ e, avg = some e → e = avgLinErr env q) →
      ∀ sol, ikLoop env tol early s q avg = some sol →
        sol.linear_err = avgLinErr env sol.qpos := by
  intro s
  induction s with
  | zero =>
      intro q avg hinv sol hsol
      rw [ikLoop_zero] at hsol
      cases avg with
      | none => exact Option.noConfusion hsol
      | some e =>
          have hsol2 : (⟨q, e⟩ : Solution n) = sol := Option.some.inj hsol
          cases hsol2
          simpa using hinv e rfl
  | succ s ih =>
      intro q avg hinv sol hsol
      rw [ikLoop_succ] at hsol
      by_cases hm : m = 0
      · rw [if_pos hm] at hsol; simp at hsol
      · rw [if_neg hm] at hsol
        by_cases hbr : (early = true ∧ closeEnough env tol (ikStep env q)) ∨
            stalled env q (ikStep env q)
        · rw [if_pos hbr] at hsol
          cases hsol
          rfl
        · rw [if_neg hbr] at hsol
          exact ih (ikStep env q) _ (fun e he => by cases he; rfl) sol hsol

lemma solveIK_linear_err {n m : ℕ} (env : Env n m) (tol : ℚ) (early : Bool)
    (steps : ℕ) (q : Fin n → ℚ) (sol : Solution n)
    (hsol : solveIK env tol steps early q = some sol) :
    sol.linear_err = avgLinErr env sol.qpos :=
  ikLoop_linear_err env tol early steps q none (by intro e he; cases he) sol hsol

/-! ## The attempt-loop invariant -/

lemma solveAux_spec {n m : ℕ} (env : Env n m) (tol : ℚ) (steps : ℕ)
    (early stopFirst : Bool) :
    ∀ (r k : ℕ) (q : Fin n → ℚ) (best : Option (ℝ × (Fin n → ℚ))) (b : Bool),
      b = best.isSome →
      (∀ d v, best = some (d, v) → d = qdist v (nullspaceRef env)) →
      ∀ res, solveAux env tol steps early stopFirst r k q best = .ok res →
        ((res = none → best = none ∧
            ∀ sol ∈ attemptTrace env tol steps early stopFirst r k q b,
              ¬ sol.linear_err ≤ (tol : ℝ)) ∧
          (∀ v, res = some v →
            ((best = some (qdist v (nullspaceRef env), v) ∨
              ∃ sol ∈ attemptTrace env tol steps early stopFirst r k q b,
                sol.linear_err ≤ (tol : ℝ) ∧ sol.qpos = v) ∧
            (∀ d w, best = some (d, w) → qdist v (nullspaceRef env) ≤ d) ∧
            (∀ sol ∈ attemptTrace env tol steps early stopFirst r k q b,
              sol.linear_err ≤ (tol : ℝ) →
                qdist v (nullspaceRef env) ≤ qdist sol.qpos (nullspaceRef env))))) := by
  intro r
  induction r with
  | zero =>
      intro k q best b hb hinv res hres
      rw [solveAux_zero] at hres
      have hres2 : res = best.map Prod.snd := (Except.ok.inj hres).symm
      rw [attemptTrace_zero]
      constructor
      · intro hnone
        refine ⟨?_, by intro sol hsol; exact absurd hsol (List.not_mem_nil _)⟩
        cases hb2 : best with
        | none => rfl
        | some p =>
            rw [hres2, hb2] at hnone
            exact Option.noConfusion hnone
      · intro v hv
        rw [hres2] at hv
        cases hb2 : best with
        | none => rw [hb2] at hv; exact Option.noConfusion hv
        | some p =>
            obtain ⟨d, w⟩ := p
            rw [hb2] at hv
            have hwv : w = v := Option.some.inj hv
            subst hwv
            have hd : d = qdist w (nullspaceRef env) := hinv d w hb2
            subst hd
            refine ⟨Or.inl rfl, ?_, ?_⟩
            · intro d1 w1 hbw
              injection hbw with h2
              injection h2 with h3 h4
              subst h4
              exact le_of_eq h3
            · intro sol hsol
              exact absurd hsol (List.not_mem_nil _)
  | succ r ih =>
      intro k q best b hb hinv res hres
      cases hs : solveIK env tol steps early (seedQ env k q) with
      | none =>
          rw [solveAux_succ_none env tol steps early stopFirst r k q best hs]
            at hres
          exact Except.noConfusion hres
      | some sol =>
          rw [solveAux_succ_some env tol steps early stopFirst r k q best sol hs]
            at hres
          rw [attemptTrace_succ_some env tol steps early stopFirst r k q b sol hs]
          have hbn : (bestNext env tol best sol).isSome = succNext tol b sol :=
            bestNext_isSome_eq_succNext env tol best sol b hb
          by_cases hstop :
              stopFirst = true ∧ (bestNext env tol best sol).isSome = true
          · rw [if_pos hstop] at hres
            have hres2 : res = (bestNext env tol best sol).map Prod.snd :=
              (Except.ok.inj hres).symm
            have htr :
                (if stopFirst = true ∧ succNext tol b sol = true then
                  ([] : List (Solution n))
                else attemptTrace env tol steps early stopFirst r (k + 1)
                  sol.qpos (succNext tol b sol)) = [] := by
              rw [if_pos ⟨hstop.1, by rw [← hbn]; exact hstop.2⟩]
            rw [htr]
            rcases Option.isSome_iff_exists.mp hstop.2 with ⟨p, hp⟩
            obtain ⟨d1, w1⟩ := p
            constructor
            · intro hnone
              rw [hres2, hp] at hnone
              exact Option.noConfusion hnone
            · intro v hv
              rw [hres2, hp] at hv
              have hwv : w1 = v := Option.some.inj hv
              subst hwv
              have hd1 : d1 = qdist w1 (nullspaceRef env) :=
                bestNext_inv env tol best sol hinv d1 w1 hp
              refine ⟨?_, ?_, ?_⟩
              · rcases bestNext_origin env tol best sol d1 w1 hp with
                  hl | ⟨hsc, hvq, _⟩
                · rw [hd1] at hl; exact Or.inl hl
                · exact Or.inr ⟨sol, List.mem_singleton_self sol, hsc, hvq.symm⟩
              · intro d0 w0 hbw
                rw [← hd1]
                exact bestNext_le_best env tol best sol d1 w1 hp d0 w0 hbw
              · intro sol1 hsol1 hsc1
                rw [List.mem_singleton] at hsol1
                subst hsol1
                rw [← hd1]
                exact bestNext_le_sol env tol best sol1 hsc1 d1 w1 hp
          · rw [if_neg hstop] at hres
            have htr :
                (if stopFirst = true ∧ succNext tol b sol = true then
                  ([] : List (Solution n))
                else attemptTrace env tol steps early stopFirst r (k + 1)
                  sol.qpos (succNext tol b sol)) =
                attemptTrace env tol steps early stopFirst r (k + 1) sol.qpos
                  (succNext tol b sol) := by
              rw [if_neg (fun hc => hstop ⟨hc.1, by rw [hbn]; exact hc.2⟩)]
            rw [htr]
            have hih := ih (k + 1) sol.qpos (bestNext env tol best sol)
              (succNext tol b sol) hbn.symm
              (bestNext_inv env tol best sol hinv) res hres
            constructor
            · intro hnone
              obtain ⟨hbn2, htail⟩ := hih.1 hnone
              obtain ⟨hbnone, hnsucc⟩ := bestNext_none env tol best sol hbn2
              refine ⟨hbnone, ?_⟩
              intro sol1 hsol1
              rcases List.mem_cons.mp hsol1 with hhead | htail1
              · subst hhead; exact hnsucc
              · exact htail sol1 htail1
            · intro v hv
              obtain ⟨horigin, hminbest, hmintrace⟩ := hih.2 v hv
              refine ⟨?_, ?_, ?_⟩
              · rcases horigin with hl | ⟨sol1, hmem, hsc, hqv⟩
                · rcases bestNext_origin env tol best sol _ _ hl with
                    hl2 | ⟨hsc, hvq, _⟩
                  · exact Or.inl hl2
                  · exact Or.inr
                      ⟨sol, List.mem_cons_self sol _, hsc, hvq.symm⟩
                · exact Or.inr ⟨sol1, List.mem_cons_of_mem sol hmem, hsc, hqv⟩
              · intro d0 w0 hbw
                have hbs : (bestNext env tol best sol).isSome = true :=
                  bestNext_isSome_of_best env tol best sol (by rw [hbw]; rfl)
                rcases Option.isSome_iff_exists.mp hbs with ⟨p, hp⟩
                obtain ⟨d1, w1⟩ := p
                calc qdist v (nullspaceRef env) ≤ d1 := hminbest d1 w1 hp
                  _ ≤ d0 := bestNext_le_best env tol best sol d1 w1 hp d0 w0 hbw
              · intro sol1 hsol1 hsc1
                rcases List.mem_cons.mp hsol1 with hhead | htail1
                · subst hhead
                  have hbs : (bestNext env tol best sol1).isSome = true :=
                    bestNext_isSome_of_succ env tol best sol1 hsc1
                  rcases Option.isSome_iff_exists.mp hbs with ⟨p, hp⟩
                  obtain ⟨d1, w1⟩ := p
                  calc qdist v (nullspaceRef env) ≤ d1 := hminbest d1 w1 hp
                    _ ≤ qdist sol1.qpos (nullspaceRef env) :=
                      bestNext_le_sol env tol best sol1 hsc1 d1 w1 hp
                · exact hmintrace sol1 htail1 hsc1

lemma solveAux_ok_none {n m : ℕ} (env : Env n m) (tol : ℚ) (steps : ℕ)
    (early stopFirst : Bool) (hm : m ≠ 0) (hst : steps ≠ 0) :
    ∀ (r k : ℕ) (q : Fin n → ℚ),
      (∀ sol ∈ attemptTrace env tol steps early stopFirst r k q false,
        ¬ sol.linear_err ≤ (tol : ℝ)) →
      solveAux env tol steps early stopFirst r k q none = .ok none := by
  intro r
  induction r with
  | zero => intro k q _; rw [solveAux_zero]; rfl
  | succ r ih =>
      intro k q hfail
      rcases Option.isSome_iff_exists.mp
        (solveIK_isSome env tol early steps (seedQ env k q) hm hst)
        with ⟨sol, hs⟩
      rw [attemptTrace_succ_some env tol steps early stopFirst r k q false sol hs]
        at hfail
      have hns : ¬ sol.linear_err ≤ (tol : ℝ) :=
        hfail sol (List.mem_cons_self sol _)
      have hbn : bestNext env tol none sol = none :=
        bestNext_fail env tol none sol hns
      have hsn : succNext tol false sol = false := by
        unfold succNext; rw [if_neg hns]
      rw [solveAux_succ_some env tol steps early stopFirst r k q none sol hs,
        hbn]
      rw [if_neg (fun hc => Bool.noConfusion hc.2)]
      apply ih (k + 1) sol.qpos
      intro sol1 hsol1
      apply hfail sol1
      apply List.mem_cons_of_mem
      rw [if_neg (fun hc => by rw [hsn] at hc; exact Bool.noConfusion hc.2)]
      rw [hsn]
      exact hsol1

/-! ## Claim theorems -/

/-- Claim C1: for every call to `IKSolver.solve`, if at least one executed
attempt succeeds (its final `linear_err` is at most `linear_tol`), then the
call returns a configuration, that configuration is the final configuration
of a successful attempt, and its Euclidean distance to the nullspace
reference configuration (the midpoint of each joint's range) is minimal
over all successful attempts. -/
theorem solve_returns_min_nullspace_success {n m : ℕ} (env : Env n m)
    (tol : ℚ) (steps : ℕ) (early stopFirst : Bool) (attempts : ℕ)
    (q0 : Fin n → ℚ) (res : Option (Fin n → ℚ))
    (hok : solve env tol steps early stopFirst attempts q0 = .ok res)
    (hsucc : ∃ sol ∈ attemptTrace env tol steps early stopFirst attempts 0 q0
      false, sol.linear_err ≤ (tol : ℝ)) :
    ∃ v, res = some v ∧
      (∃ sol ∈ attemptTrace env tol steps early stopFirst attempts 0 q0 false,
        sol.linear_err ≤ (tol : ℝ) ∧ sol.qpos = v) ∧
      (∀ sol ∈ attemptTrace env tol steps early stopFirst attempts 0 q0 false,
        sol.linear_err ≤ (tol : ℝ) →
          qdist v (nullspaceRef env) ≤ qdist sol.qpos (nullspaceRef env)) := by
  have hspec := solveAux_spec env tol steps early stopFirst attempts 0 q0 none
    false rfl (fun d v h => Option.noConfusion h) res hok
  cases hres : res with
  | none =>
      obtain ⟨_, hnone⟩ := hspec.1 hres
      rcases hsucc with ⟨sol, hmem, hsc⟩
      exact absurd hsc (hnone sol hmem)
  | some v =>
      obtain ⟨horigin, _, hmin⟩ := hspec.2 v hres
      refine ⟨v, rfl, ?_, hmin⟩
      rcases horigin with hl | hr
      · exact Option.noConfusion hl
      · exact hr

/-- Claim C2 (amended): for every call to `IKSolver.solve` with a positive
step budget and a nonempty target set, if no executed attempt reaches
`linear_err ≤ linear_tol` then the call returns no configuration (`None`)
and raises no exception.  (As literally stated the claim is false: with
`max_steps = 0`, or an empty target set, the per-attempt stepper raises
before producing a solution, so `solve` propagates an exception — see the
counterexample.) -/
theorem solve_no_success_returns_none {n m : ℕ} (env : Env n m) (tol : ℚ)
    (steps : ℕ) (early stopFirst : Bool) (attempts : ℕ) (q0 : Fin n → ℚ)
    (hm : m ≠ 0) (hst : steps ≠ 0)
    (hfail : ∀ sol ∈ attemptTrace env tol steps early stopFirst attempts 0 q0
      false, ¬ sol.linear_err ≤ (tol : ℝ)) :
    solve env tol steps early stopFirst attempts q0 = .ok none :=
  solveAux_ok_none env tol steps early stopFirst hm hst attempts 0 q0 hfail

/-- Claim C4: after each integration step of every attempt, each component
of the joint configuration produced by the step (integration followed by
`np.clip` against the joint's static limits, before forward kinematics is
recomputed) lies within that joint's `[min, max]` range, provided the range
is well-formed (`min ≤ max`). -/
theorem ikStep_within_limits {n m : ℕ} (env : Env n m) (q : Fin n → ℚ)
    (i : Fin n) (hr : (env.ranges i).1 ≤ (env.ranges i).2) :
    (env.ranges i).1 ≤ ikStep env q i ∧ ikStep env q i ≤ (env.ranges i).2 := by
  show (env.ranges i).1 ≤ clampJoint (env.ranges i) _ ∧
    clampJoint (env.ranges i) _ ≤ (env.ranges i).2
  unfold clampJoint
  constructor
  · exact le_min (le_max_right _ _) hr
  · exact min_le_right _ _

/-- Claim C5: inside one attempt, if after an integration step some target's
linear error divided by (that target's displacement over the step plus
`1e-10`) exceeds `20.0`, the step loop returns immediately (the attempt
ends early); and a stalled attempt never fails the overall `solve` call by
itself — with `stop_on_first_successful_attempt` unset, the attempt loop
always continues to the next restart after an attempt returns. -/
theorem stall_ends_attempt_not_solve {n m : ℕ} (env : Env n m) (tol : ℚ)
    (steps s r k : ℕ) (early : Bool) (q qa : Fin n → ℚ) (avg : Option ℝ)
    (best : Option (ℝ × (Fin n → ℚ))) (sol : Solution n) (hm : m ≠ 0)
    (hstall : stalled env q (ikStep env q))
    (hsol : solveIK env tol steps early (seedQ env k qa) = some sol) :
    ikLoop env tol early (s + 1) q avg =
      some ⟨ikStep env q, avgLinErr env (ikStep env q)⟩ ∧
    solveAux env tol steps early false (r + 1) k qa best =
      solveAux env tol steps early false r (k + 1) sol.qpos
        (bestNext env tol best sol) := by
  constructor
  · rw [ikLoop_succ, if_neg hm, if_pos (Or.inr hstall)]
  · rw [solveAux_succ_some env tol steps early false r k qa best sol hsol]
    rw [if_neg (fun hc => Bool.noConfusion hc.1)]

/-- Claim C6: the step loop exits with the converged outcome only when
every target's error is within `linear_tol` and early-stop is enabled: with
`early_stop` on and all targets within tolerance the loop returns at this
step, while with `early_stop` off an attempt whose targets are all within
tolerance still keeps stepping (it can only end by stalling or by
exhausting the `max_steps` budget). -/
theorem converged_exit_requires_early_stop {n m : ℕ} (env : Env n m)
    (tol : ℚ) (s : ℕ) (q : Fin n → ℚ) (avg : Option ℝ) (hm : m ≠ 0)
    (hclose : closeEnough env tol (ikStep env q))
    (hnostall : ¬ stalled env q (ikStep env q)) :
    ikLoop env tol true (s + 1) q avg =
      some ⟨ikStep env q, avgLinErr env (ikStep env q)⟩ ∧
    ikLoop env tol false (s + 1) q avg =
      ikLoop env tol false s (ikStep env q)
        (some (avgLinErr env (ikStep env q))) := by
  constructor
  · rw [ikLoop_succ, if_neg hm, if_pos (Or.inl ⟨rfl, hclose⟩)]
  · rw [ikLoop_succ, if_neg hm,
      if_neg (fun hc => by
        rcases hc with ⟨hb, _⟩ | hst
        · exact Bool.noConfusion hb
        · exact hnostall hst)]

/-- Claim C7: attempt `0` seeds every controllable joint position to zero;
every attempt of index `k ≥ 1` seeds each controllable joint to the random
value `np.random.uniform(min_i, max_i)` drawn for it, which lies within
that joint's `[min, max]` range (the range containment is `numpy`'s
contract for `uniform`, carried as the hypothesis `hrand`); joints outside
the controllable set are untouched. -/
theorem seed_zero_then_uniform {n m : ℕ} (env : Env n m) (k : ℕ)
    (q : Fin n → ℚ)
    (hrand : ∀ (j : ℕ) (i : Fin n),
      (env.ranges i).1 ≤ env.rand j i ∧ env.rand j i ≤ (env.ranges i).2) :
    (∀ i ∈ env.ctrl, seedQ env 0 q i = 0) ∧
    (∀ i, i ∉ env.ctrl → seedQ env k q i = q i) ∧
    (k ≠ 0 → ∀ i ∈ env.ctrl, seedQ env k q i = env.rand k i ∧
      (env.ranges i).1 ≤ seedQ env k q i ∧
      seedQ env k q i ≤ (env.ranges i).2) := by
  refine ⟨?_, ?_, ?_⟩
  · intro i hi
    unfold seedQ
    rw [if_pos hi, if_pos rfl]
  · intro i hi
    unfold seedQ
    rw [if_neg hi]
  · intro hk i hi
    have hv : seedQ env k q i = env.rand k i := by
      unfold seedQ
      rw [if_pos hi, if_neg hk]
    refine ⟨hv, ?_, ?_⟩
    · rw [hv]; exact (hrand k i).1
    · rw [hv]; exact (hrand k i).2

/-- Claim C8: with `stop_on_first_successful_attempt = true`, as soon as an
attempt's final `linear_err` is within `linear_tol` the attempt loop
returns (the currently retained configuration) without executing any of the
remaining attempts — the result is the same for every number of remaining
attempts `r`. -/
theorem stop_on_first_success_short_circuit {n m : ℕ} (env : Env n m)
    (tol : ℚ) (steps : ℕ) (early : Bool) (r k : ℕ) (q : Fin n → ℚ)
    (best : Option (ℝ × (Fin n → ℚ))) (sol : Solution n)
    (hsol : solveIK env tol steps early (seedQ env k q) = some sol)
    (hsucc : sol.linear_err ≤ (tol : ℝ)) :
    solveAux env tol steps early true (r + 1) k q best =
      .ok ((bestNext env tol best sol).map Prod.snd) := by
  rw [solveAux_succ_some env tol steps early true r k q best sol hsol]
  rw [if_pos ⟨rfl, bestNext_isSome_of_succ env tol best sol hsucc⟩]

/-- Claim C9 (amended): for a positive step budget and a nonempty target
set, every solve attempt (`_solve_ik`) returns a `Solution` — a joint
configuration with its mean linear error — whichever way it terminates.
(As literally stated the claim is false: with `max_steps = 0` the Python
local `avg_linear_err` is never assigned and line 292 raises
`UnboundLocalError`, and with an empty target set the first iteration
divides by `len(target_positions) = 0` — see the counterexample.) -/
theorem solveIK_total {n m : ℕ} (env : Env n m) (tol : ℚ) (steps : ℕ)
    (early : Bool) (q : Fin n → ℚ) (hm : m ≠ 0) (hst : steps ≠ 0) :
    ∃ sol, solveIK env tol steps early q = some sol :=
  Option.isSome_iff_exists.mp (solveIK_isSome env tol early steps q hm hst)

/-- Claim C10: whenever an attempt returns a `Solution`, its `linear_err`
field equals the arithmetic mean over targets of the Euclidean distance
between each target position and its tracked site's position at the
returned configuration, and this value is never negative. -/
theorem solution_linear_err_is_mean {n m : ℕ} (env : Env n m) (tol : ℚ)
    (steps : ℕ) (early : Bool) (q : Fin n → ℚ) (sol : Solution n)
    (hsol : solveIK env tol steps early q = some sol) :
    sol.linear_err =
      (∑ i, dist3 (env.targets i) (env.fk sol.qpos i)) / m ∧
    0 ≤ sol.linear_err := by
  have h := solveIK_linear_err env tol early steps q sol hsol
  constructor
  · rw [h]; rfl
  · rw [h]; exact avgLinErr_nonneg env sol.qpos

/-! ## Concrete oracle instances, used to witness the theorems -/

/-- The constant configuration `1/2` on one joint. -/
def qHalf : Fin 1 → ℚ := fun _ => 1/2

/-- The zero configuration on one joint. -/
def qZero : Fin 1 → ℚ := fun _ => 0

/-- One joint with range `[0, 1]`, one target; the oracle holds the
fingertip exactly on the target, so every step has zero error. -/
def envA : Env 1 1 where
  ranges := fun _ => (0, 1)
  ctrl := ∅
  gain := 0
  mapper := fun _ _ _ => fun _ => 0
  integrate := fun q qdot => fun i => q i + qdot i
  fk := fun _ _ => ⟨0, 0, 0⟩
  targets := fun _ => ⟨0, 0, 0⟩
  rand := fun _ _ => 1/2

/-- Like `envA` but the target sits at distance `1` from the motionless
fingertip: the error stays `1` and every step stalls. -/
def envB : Env 1 1 where
  ranges := fun _ => (0, 1)
  ctrl := ∅
  gain := 0
  mapper := fun _ _ _ => fun _ => 0
  integrate := fun q qdot => fun i => q i + qdot i
  fk := fun _ _ => ⟨0, 0, 0⟩
  targets := fun _ => ⟨1, 0, 0⟩
  rand := fun _ _ => 1/2

/-- One joint, no targets at all (`target_positions` empty). -/
def envC : Env 1 0 where
  ranges := fun _ => (0, 1)
  ctrl := ∅
  gain := 0
  mapper := fun _ _ _ => fun _ => 0
  integrate := fun q qdot => fun i => q i + qdot i
  fk := fun _ i => i.elim0
  targets := fun i => i.elim0
  rand := fun _ _ => 1/2

/-- One controllable joint with range `[0, 2]` and a configured
`nullspace_gain` of `0.8` (not the module default `0.4`). -/
def envD : Env 1 1 where
  ranges := fun _ => (0, 2)
  ctrl := {0}
  gain := 4/5
  mapper := fun _ _ _ => fun _ => 0
  integrate := fun q qdot => fun i => q i + qdot i
  fk := fun _ _ => ⟨0, 0, 0⟩
  targets := fun _ => ⟨0, 0, 0⟩
  rand := fun _ _ => 1/2

/-- Claim C3: the nullspace bias actually passed to the velocity mapper.
With a configured gain of `0.8` on a joint whose range midpoint is `1` and
current position `0`, the code passes `0.4 * (1 - 0) / 1 = 0.4` — the
module constant `_NULLSPACE_GAIN`, not the configured
`self._nullspace_gain` — while the claim (and the constructor docstring)
require `0.8 * (1 - 0) / 1 = 0.8`; the two differ.  With a configured gain
of `0`, no bias is computed or passed (that half of the claim holds). -/
theorem nullspace_bias_uses_module_constant :
    (∃ b, nullspaceBias envD qZero = some b ∧ b 0 = 2/5) ∧
    envD.gain * (nullspaceRef envD 0 - qZero 0) / INTEGRATION_TIMESTEP
      = 4/5 ∧
    (2/5 : ℚ) ≠ 4/5 ∧
    (∀ q : Fin 1 → ℚ, nullspaceBias envA q = none) := by
  refine ⟨⟨fun i =>
      NULLSPACE_GAIN_CONST * (nullspaceRef envD i - qZero i) /
        INTEGRATION_TIMESTEP, ?_, ?_⟩, ?_, ?_, ?_⟩
  · unfold nullspaceBias
    rw [if_pos (by norm_num [envD])]
  · norm_num [NULLSPACE_GAIN_CONST, INTEGRATION_TIMESTEP, nullspaceRef, envD,
      qZero]
  · norm_num [INTEGRATION_TIMESTEP, nullspaceRef, envD, qZero]
  · norm_num
  · intro q
    unfold nullspaceBias
    rw [if_neg (by norm_num [envA])]

/-! ## Evaluation lemmas for the concrete instances -/

lemma seedQ_envA (k : ℕ) (q : Fin 1 → ℚ) : seedQ envA k q = q := by
  funext i
  unfold seedQ
  rw [if_neg]
  show i ∉ (∅ : Finset (Fin 1))
  exact Finset.not_mem_empty i

lemma seedQ_envB (k : ℕ) (q : Fin 1 → ℚ) : seedQ envB k q = q := by
  funext i
  unfold seedQ
  rw [if_neg]
  show i ∉ (∅ : Finset (Fin 1))
  exact Finset.not_mem_empty i

lemma ikStep_envA : ikStep envA qHalf = qHalf := by
  funext i
  show clampJoint (envA.ranges i) (envA.integrate qHalf _ i) = qHalf i
  show min (max (qHalf i + 0) 0) 1 = qHalf i
  norm_num [qHalf]

lemma ikStep_envB : ikStep envB qHalf = qHalf := by
  funext i
  show clampJoint (envB.ranges i) (envB.integrate qHalf _ i) = qHalf i
  show min (max (qHalf i + 0) 0) 1 = qHalf i
  norm_num [qHalf]

lemma linErr_envA (q : Fin 1 → ℚ) (i : Fin 1) : linErr envA q i = 0 := by
  show dist3 ⟨0, 0, 0⟩ ⟨0, 0, 0⟩ = 0
  exact dist3_self _

lemma linErr_envB (q : Fin 1 → ℚ) (i : Fin 1) : linErr envB q i = 1 := by
  show dist3 ⟨1, 0, 0⟩ ⟨0, 0, 0⟩ = 1
  unfold dist3
  rw [show sqDist ⟨1, 0, 0⟩ ⟨0, 0, 0⟩ = 1 by norm_num [sqDist]]
  simp

lemma avgLinErr_envA (q : Fin 1 → ℚ) : avgLinErr envA q = 0 := by
  unfold avgLinErr
  simp [linErr_envA]

lemma avgLinErr_envB (q : Fin 1 → ℚ) : avgLinErr envB q = 1 := by
  unfold avgLinErr
  simp [linErr_envB]

lemma closeEnough_envA (q : Fin 1 → ℚ) : closeEnough envA (1/1000) q := by
  intro i
  rw [linErr_envA]
  norm_num

lemma not_stalled_envA (q q1 : Fin 1 → ℚ) : ¬ stalled envA q q1 := by
  rintro ⟨i, hi⟩
  rw [linErr_envA] at hi
  have h0 : (0 : ℝ) ≤ dist3 (envA.fk q1 i) (envA.fk q i) + (PROGRESS_EPS : ℝ) := by
    have := dist3_nonneg (envA.fk q1 i) (envA.fk q i)
    have heps : (0 : ℝ) ≤ (PROGRESS_EPS : ℝ) := by
      norm_num [PROGRESS_EPS]
    linarith
  have : (0 : ℝ) / (dist3 (envA.fk q1 i) (envA.fk q i) + (PROGRESS_EPS : ℝ)) = 0 := by
    simp
  rw [this] at hi
  have h20 : ((PROGRESS_THRESHOLD : ℚ) : ℝ) = 20 := by
    norm_num [PROGRESS_THRESHOLD]
  rw [h20] at hi
  linarith

lemma stalled_envB (q q1 : Fin 1 → ℚ) : stalled envB q q1 := by
  refine ⟨0, ?_⟩
  rw [linErr_envB]
  have hch : dist3 (envB.fk q1 0) (envB.fk q 0) = 0 := dist3_self _
  rw [hch]
  have heps : ((PROGRESS_EPS : ℚ) : ℝ) = 1/10000000000 := by
    norm_num [PROGRESS_EPS]
  have h20 : ((PROGRESS_THRESHOLD : ℚ) : ℝ) = 20 := by
    norm_num [PROGRESS_THRESHOLD]
  rw [heps, h20]
  norm_num

lemma solveIK_envA :
    solveIK envA (1/1000) 1 true qHalf = some ⟨qHalf, 0⟩ := by
  unfold solveIK
  rw [ikLoop_succ, if_neg one_ne_zero,
    if_pos (Or.inl ⟨rfl, closeEnough_envA _⟩), ikStep_envA, avgLinErr_envA]

lemma solveIK_envB :
    solveIK envB (1/1000) 1 false qHalf = some ⟨qHalf, 1⟩ := by
  unfold solveIK
  rw [ikLoop_succ, if_neg one_ne_zero,
    if_pos (Or.inr (stalled_envB _ _)), ikStep_envB, avgLinErr_envB]

lemma solveIK_envA_seed :
    solveIK envA (1/1000) 1 true (seedQ envA 0 qHalf) = some ⟨qHalf, 0⟩ := by
  rw [seedQ_envA]
  exact solveIK_envA

lemma solveIK_envB_seed :
    solveIK envB (1/1000) 1 false (seedQ envB 0 qHalf) = some ⟨qHalf, 1⟩ := by
  rw [seedQ_envB]
  exact solveIK_envB

lemma solve_envA :
    solve envA (1/1000) 1 true false 1 qHalf = .ok (some qHalf) := by
  unfold solve
  rw [solveAux_succ_some envA (1/1000) 1 true false 0 0 qHalf none
    ⟨qHalf, 0⟩ solveIK_envA_seed]
  rw [if_neg (fun hc => Bool.noConfusion hc.1), solveAux_zero]
  rw [bestNext_succ envA (1/1000) none ⟨qHalf, 0⟩
    (by show (0 : ℝ) ≤ ((1/1000 : ℚ) : ℝ); norm_num)]
  rfl

lemma trace_envA :
    attemptTrace envA (1/1000) 1 true false 1 0 qHalf false =
      [⟨qHalf, 0⟩] := by
  rw [attemptTrace_succ_some envA (1/1000) 1 true false 0 0 qHalf false
    ⟨qHalf, 0⟩ solveIK_envA_seed]
  rw [if_neg (fun hc => Bool.noConfusion hc.1), attemptTrace_zero]

lemma trace_envB :
    attemptTrace envB (1/1000) 1 false false 1 0 qHalf false =
      [⟨qHalf, 1⟩] := by
  rw [attemptTrace_succ_some envB (1/1000) 1 false false 0 0 qHalf false
    ⟨qHalf, 1⟩ solveIK_envB_seed]
  rw [if_neg (fun hc => Bool.noConfusion hc.1), attemptTrace_zero]

/-! ## Counterexamples -/

/-- Counterexample to claim C2 as stated: with `max_steps = 0` no attempt
produces a solution (the executed-attempt trace is empty, so in particular
no attempt reaches the tolerance), yet `solve` does not return `None` — it
propagates an exception (`avg_linear_err` is referenced before assignment
in `_solve_ik`). -/
theorem solve_raises_at_zero_steps :
    attemptTrace envB (1/1000) 0 false false 1 0 qHalf false = [] ∧
    solve envB (1/1000) 0 false false 1 qHalf = .error () := by
  constructor
  · exact attemptTrace_succ_none envB (1/1000) 0 false false 0 0 qHalf false
      rfl
  · unfold solve
    exact solveAux_succ_none envB (1/1000) 0 false false 0 0 qHalf none rfl

/-- Counterexample to claim C9 as stated: an attempt does not return a
`Solution` for every `max_steps` value and every target set — with
`max_steps = 0` (left) or an empty target set (right) `_solve_ik` raises
instead of returning. -/
theorem solveIK_not_total_without_steps_or_targets :
    solveIK envB (1/1000) 0 false qHalf = none ∧
    solveIK envC (1/1000) 5 false qHalf = none :=
  ⟨rfl, solveIK_eq_none_of_m_eq_zero envC (1/1000) false 5 qHalf rfl⟩

/-! ## Witnesses -/

/-- Witness for C1 at `envA`: the single attempt succeeds with error `0`
and `solve` returns its configuration, which is minimal among successes. -/
theorem solve_returns_min_nullspace_success_witness :
    ∃ v, (some qHalf : Option (Fin 1 → ℚ)) = some v ∧
      (∃ sol ∈ attemptTrace envA (1/1000) 1 true false 1 0 qHalf false,
        sol.linear_err ≤ ((1/1000 : ℚ) : ℝ) ∧ sol.qpos = v) ∧
      (∀ sol ∈ attemptTrace envA (1/1000) 1 true false 1 0 qHalf false,
        sol.linear_err ≤ ((1/1000 : ℚ) : ℝ) →
          qdist v (nullspaceRef envA) ≤ qdist sol.qpos (nullspaceRef envA)) :=
  solve_returns_min_nullspace_success envA (1/1000) 1 true false 1 qHalf
    (some qHalf) solve_envA
    ⟨⟨qHalf, 0⟩, by rw [trace_envA]; exact List.mem_singleton_self _,
      by show (0 : ℝ) ≤ ((1/1000 : ℚ) : ℝ); norm_num⟩

/-- Witness for C2 (amended) at `envB`: the single attempt stalls with
error `1 > 1/1000`, and `solve` returns `None` without raising. -/
theorem solve_no_success_returns_none_witness :
    solve envB (1/1000) 1 false false 1 qHalf = .ok none :=
  solve_no_success_returns_none envB (1/1000) 1 false false 1 qHalf
    one_ne_zero one_ne_zero
    (by
      rw [trace_envB]
      intro sol hsol
      rw [List.mem_singleton] at hsol
      subst hsol
      show ¬ (1 : ℝ) ≤ ((1/1000 : ℚ) : ℝ)
      norm_num)

/-- Witness for C4 at `envA`: the stepped configuration of joint `0` stays
inside its `[0, 1]` range. -/
theorem ikStep_within_limits_witness :
    (envA.ranges 0).1 ≤ ikStep envA qHalf 0 ∧
    ikStep envA qHalf 0 ≤ (envA.ranges 0).2 :=
  ikStep_within_limits envA qHalf 0 (by norm_num [envA])

/-- Witness for C5 at `envB`: the first step stalls (error `1`, zero
displacement), the attempt returns after that single step, and `solve`
moves on to the next attempt. -/
theorem stall_ends_attempt_not_solve_witness :
    ikLoop envB (1/1000) false (0 + 1) qHalf none =
      some ⟨ikStep envB qHalf, avgLinErr envB (ikStep envB qHalf)⟩ ∧
    solveAux envB (1/1000) 1 false false (0 + 1) 0 qHalf none =
      solveAux envB (1/1000) 1 false false 0 (0 + 1)
        (Solution.qpos ⟨qHalf, 1⟩)
        (bestNext envB (1/1000) none ⟨qHalf, 1⟩) :=
  stall_ends_attempt_not_solve envB (1/1000) 1 0 0 0 false qHalf qHalf none
    none ⟨qHalf, 1⟩ one_ne_zero
    (by rw [ikStep_envB]; exact stalled_envB _ _) solveIK_envB_seed

/-- Witness for C6 at `envA`: all targets are within tolerance after the
step; with early-stop the loop returns at once, without it the loop
continues stepping. -/
theorem converged_exit_requires_early_stop_witness :
    ikLoop envA (1/1000) true (0 + 1) qHalf none =
      some ⟨ikStep envA qHalf, avgLinErr envA (ikStep envA qHalf)⟩ ∧
    ikLoop envA (1/1000) false (0 + 1) qHalf none =
      ikLoop envA (1/1000) false 0 (ikStep envA qHalf)
        (some (avgLinErr envA (ikStep envA qHalf))) :=
  converged_exit_requires_early_stop envA (1/1000) 0 qHalf none one_ne_zero
    (by rw [ikStep_envA]; exact closeEnough_envA _)
    (not_stalled_envA _ _)

/-- Witness for C7 at `envD`: attempt `0` zeroes the controllable joint,
attempt `1` writes the drawn value `1/2`, which lies inside `[0, 2]`. -/
theorem seed_zero_then_uniform_witness :
    (∀ i ∈ envD.ctrl, seedQ envD 0 qHalf i = 0) ∧
    (∀ i, i ∉ envD.ctrl → seedQ envD 1 qHalf i = qHalf i) ∧
    ((1 : ℕ) ≠ 0 → ∀ i ∈ envD.ctrl, seedQ envD 1 qHalf i = envD.rand 1 i ∧
      (envD.ranges i).1 ≤ seedQ envD 1 qHalf i ∧
      seedQ envD 1 qHalf i ≤ (envD.ranges i).2) :=
  seed_zero_then_uniform envD 1 qHalf
    (by intro j i; constructor <;> norm_num [envD])

/-- Witness for C8 at `envA`: attempt `0` succeeds; with
`stop_on_first_successful_attempt` the loop returns immediately even though
three more attempts remain. -/
theorem stop_on_first_success_short_circuit_witness :
    solveAux envA (1/1000) 1 true true (3 + 1) 0 qHalf none =
      .ok ((bestNext envA (1/1000) none ⟨qHalf, 0⟩).map Prod.snd) :=
  stop_on_first_success_short_circuit envA (1/1000) 1 true 3 0 qHalf none
    ⟨qHalf, 0⟩ solveIK_envA_seed
    (by show (0 : ℝ) ≤ ((1/1000 : ℚ) : ℝ); norm_num)

/-- Witness for C9 (amended) at `envA`: with one step and one target the
attempt produces a `Solution`. -/
theorem solveIK_total_witness :
    ∃ sol, solveIK envA (1/1000) 1 true qHalf = some sol :=
  solveIK_total envA (1/1000) 1 true qHalf one_ne_zero one_ne_zero

/-- Witness for C10 at `envA`: the returned solution's `linear_err` equals
the mean per-target distance at its configuration and is nonnegative. -/
theorem solution_linear_err_is_mean_witness :
    (Solution.linear_err (n := 1) ⟨qHalf, 0⟩) =
      (∑ i, dist3 (envA.targets i)
        (envA.fk (Solution.qpos (n := 1) ⟨qHalf, 0⟩) i)) / ((1 : ℕ) : ℝ) ∧
    0 ≤ (Solution.linear_err (n := 1) ⟨qHalf, 0⟩) :=
  solution_linear_err_is_mean envA (1/1000) 1 true qHalf ⟨qHalf, 0⟩
    solveIK_envA

end Dexterity
